import Mathlib

/-!
Shallow embedding of `src/anki.py` (chanq-io/anki-cli): the data model, the
SM-2-style scheduling engine, the review-session state machine, and the
persistence layer, together with theorems checking the specification's
claims against the code.

Python floats and `datetime` values are embedded as exact rationals;
timestamps and the `now` clock count days.  Python dicts are embedded as
association lists whose lookup returns the first matching key and whose
insertion keeps the position of an existing key (CPython dict semantics).
-/

namespace Anki

/-- `Score = Enum('Score', 'FAIL HARD PASS EASY', start=1)` (src/anki.py line 16). -/
inductive Score where
  | FAIL
  | HARD
  | PASS
  | EASY
deriving DecidableEq

/-- The `FlashCard` namedtuple (src/anki.py lines 19-22). -/
structure FlashCard where
  path : String
  tags : List String
  question : String
  answer : String
  due : ℚ
  interval : ℚ
  factor : ℚ
deriving DecidableEq

/-- The `Deck` namedtuple (src/anki.py lines 23-32).  `tag` is `None` for a
session started without a tag argument. -/
structure Deck where
  tag : Option String
  flash_cards : List String
  standard_interval_modifier : ℚ
  easy_interval_modifier : ℚ
  fail_interval_modifier : ℚ
deriving DecidableEq

/-- The `AnkiState` namedtuple (src/anki.py line 33) in the typed form that
`deserialise` produces: decks keyed by their tag string, cards keyed by path.
JSON object keys are always strings, so the deck keys here are `String`. -/
structure AnkiState where
  decks : List (String × Deck)
  flash_cards : List (String × FlashCard)
deriving DecidableEq

/-- Lookup in a Python dict embedded as an association list. -/
def dictLookup {K V : Type} [DecidableEq K] (kvs : List (K × V)) (k : K) : Option V :=
  (kvs.find? fun p => decide (p.1 = k)).map Prod.snd

/-- Python dict assignment `d[k] = v`: an existing key keeps its position and
gets the new value, a new key is appended at the end. -/
def dictInsert {K V : Type} [DecidableEq K] (kvs : List (K × V)) (k : K) (v : V) :
    List (K × V) :=
  if kvs.any (fun p => decide (p.1 = k)) then
    kvs.map (fun p => if p.1 = k then (k, v) else p)
  else kvs ++ [(k, v)]

/-- Python `{**a, **b}`: start from `a`, then assign every binding of `b`. -/
def dictMerge {K V : Type} [DecidableEq K] (a b : List (K × V)) : List (K × V) :=
  b.foldl (fun acc p => dictInsert acc p.1 p.2) a

/-- The Python membership test `tag in c.tags` of `filter_by_tag`
(src/anki.py line 65): `None` compares unequal to every string, so
`None in tags` is always `False`; a string is tested for list membership. -/
def tagMem (tag : Option String) (tags : List String) : Bool :=
  match tag with
  | none => false
  | some t => tags.contains t

/-- `filter_by_tag` (src/anki.py lines 64-65). -/
def filter_by_tag (flash_cards : List FlashCard) (tag : Option String) :
    List FlashCard :=
  flash_cards.filter fun c => tagMem tag c.tags

/-- `maybe_state` (src/anki.py lines 61-62) specialised to one field: read the
field from the prior state record if there is one, else use the fallback. -/
def maybe_state {α β : Type} (state : Option α) (field : α → β) (fallback : β) : β :=
  match state with
  | some s => field s
  | none => fallback

/-- `new_deck` (src/anki.py lines 84-91): member list is the card paths,
modifiers come from the prior persisted deck record if present, else the
defaults 1.0 / 1.3 / 0.0. -/
def new_deck (tag : Option String) (flash_cards : List FlashCard)
    (state : Option Deck) : Deck where
  tag := tag
  flash_cards := flash_cards.map (·.path)
  standard_interval_modifier := maybe_state state (·.standard_interval_modifier) 1
  easy_interval_modifier := maybe_state state (·.easy_interval_modifier) (13 / 10)
  fail_interval_modifier := maybe_state state (·.fail_interval_modifier) 0

/-- `update_flash_card` (src/anki.py lines 81-82). -/
def update_flash_card (card : FlashCard) (interval factor due : ℚ) : FlashCard :=
  { card with due := due, interval := interval, factor := factor }

/-- The deck construction performed by `main` (src/anki.py lines 365-369):
the deck's members are the cards passing the tag filter. -/
def mainDeck (tag : Option String) (cards : List FlashCard) (prior : Option Deck) :
    Deck :=
  new_deck tag (filter_by_tag cards tag) prior

/-- `calculate_new_interval` (src/anki.py lines 150-162).  The elapsed days
`d = (datetime.now() - card.due).days` is the `days` field of a Python
`timedelta`, i.e. the floor of the elapsed time measured in days (an
integer, negative when the card is reviewed early). -/
def calculate_new_interval (score : Score) (card : FlashCard) (deck : Deck)
    (now : ℚ) : ℚ :=
  let i := card.interval
  let m := deck.standard_interval_modifier
  let m0 := deck.fail_interval_modifier
  let m4 := deck.easy_interval_modifier
  let f := card.factor
  let d : ℚ := (⌊now - card.due⌋ : ℤ)
  let i1 := m0 * i
  let i2 := max (i + 1) ((i + d / 4) * (12 / 10) * m)
  let i3 := max (i2 + 1) ((i + d / 2) * (f / 1000) * m)
  let i4 := max (i3 + 1) ((i + d) * (f / 1000) * m * m4)
  match score with
  | .FAIL => i1
  | .HARD => i2
  | .PASS => i3
  | .EASY => i4

/-- `calculate_new_interval` with the elapsed-day count `d` as an explicit
parameter; the body is otherwise the one of src/anki.py lines 150-162. -/
def calculate_new_interval_d (score : Score) (card : FlashCard) (deck : Deck)
    (d : ℤ) : ℚ :=
  let i := card.interval
  let m := deck.standard_interval_modifier
  let m0 := deck.fail_interval_modifier
  let m4 := deck.easy_interval_modifier
  let f := card.factor
  let dq : ℚ := (d : ℤ)
  let i1 := m0 * i
  let i2 := max (i + 1) ((i + dq / 4) * (12 / 10) * m)
  let i3 := max (i2 + 1) ((i + dq / 2) * (f / 1000) * m)
  let i4 := max (i3 + 1) ((i + dq) * (f / 1000) * m * m4)
  match score with
  | .FAIL => i1
  | .HARD => i2
  | .PASS => i3
  | .EASY => i4

/-- The interval computation as the specification words it for claim C4
(refinement comparison only): `d = days elapsed between now and card.due`
taken as an exact real (rational) value, not floored. -/
def calculate_new_interval_specExact (score : Score) (card : FlashCard)
    (deck : Deck) (now : ℚ) : ℚ :=
  let i := card.interval
  let m := deck.standard_interval_modifier
  let m0 := deck.fail_interval_modifier
  let m4 := deck.easy_interval_modifier
  let f := card.factor
  let d : ℚ := now - card.due
  let i1 := m0 * i
  let i2 := max (i + 1) ((i + d / 4) * (12 / 10) * m)
  let i3 := max (i2 + 1) ((i + d / 2) * (f / 1000) * m)
  let i4 := max (i3 + 1) ((i + d) * (f / 1000) * m * m4)
  match score with
  | .FAIL => i1
  | .HARD => i2
  | .PASS => i3
  | .EASY => i4

/-- `calculate_new_factor` (src/anki.py lines 164-171). -/
def calculate_new_factor (score : Score) (card : FlashCard) : ℚ :=
  match score with
  | .FAIL => max 1300 (card.factor - 200)
  | .HARD => max 1300 (card.factor - 150)
  | .PASS => card.factor
  | .EASY => max 1300 (card.factor + 150)

section SchedulingClaims

/-- Fresh card of the claim C6 scenario (also used as a concrete witness
input elsewhere): interval 0, factor 1300, due exactly at the (zero) clock. -/
def c1wcard : FlashCard :=
  ⟨"fresh.md", ["t"], "q", "a", 0, 0, 1300⟩

/-- Default-modifier deck of the claim C6 scenario, built by `new_deck` with
no prior persisted deck record (hence modifiers 1.0 / 1.3 / 0.0). -/
def c1wdeck : Deck :=
  new_deck (some "t") [c1wcard] Option.none

/-- Early-review card for the `c4_amended` witness: due at time 1. -/
def c4wcard : FlashCard :=
  ⟨"p.md", ["t"], "q", "a", 1, 10, 1300⟩

/-- Concrete card for the claim C1 counterexample: interval 1, factor 1300,
due exactly now (elapsed days d = 0, satisfying the claim's hypothesis). -/
def c1card : FlashCard :=
  ⟨"p.md", ["t"], "q", "a", 0, 1, 1300⟩

/-- Concrete deck for the claim C1 counterexample: standard modifier 1,
easy modifier 1.3, fail modifier 10. -/
def c1deck : Deck :=
  ⟨some "t", ["p.md"], 1, 13 / 10, 10⟩

/-- Claim C1 counterexample: with elapsed days d = 0 (non-negative, as the
claim requires) but fail modifier 10 and interval 1, the FAIL interval is 10
while the HARD interval is 2, so `nextInterval(FAIL) < nextInterval(HARD)`
fails: the FAIL tier has no floor tied to the HARD tier. -/
theorem c1_counterexample :
    (0 : ℤ) ≤ ⌊(0 : ℚ) - c1card.due⌋ ∧
    ¬ (calculate_new_interval Score.FAIL c1card c1deck 0 <
        calculate_new_interval Score.HARD c1card c1deck 0) := by
  constructor
  · norm_num [c1card]
  · norm_num [calculate_new_interval, c1card, c1deck, max_def]

/-- Claim C1 (amended): for every card, deck and clock, the HARD, PASS and
EASY intervals are strictly increasing (each tier's floor is the previous
tier plus one); the FAIL interval is additionally below the HARD interval
whenever the card's interval is non-negative and the deck's fail modifier is
at most 1 (in particular under the default fail modifier 0) — but not for
arbitrary modifier configurations. -/
theorem c1_amended (card : FlashCard) (deck : Deck) (now : ℚ) :
    (calculate_new_interval Score.HARD card deck now <
       calculate_new_interval Score.PASS card deck now ∧
     calculate_new_interval Score.PASS card deck now <
       calculate_new_interval Score.EASY card deck now) ∧
    (0 ≤ card.interval → deck.fail_interval_modifier ≤ 1 →
      calculate_new_interval Score.FAIL card deck now <
        calculate_new_interval Score.HARD card deck now) := by
  refine ⟨⟨?_, ?_⟩, ?_⟩
  · simp only [calculate_new_interval]
    exact lt_of_lt_of_le (lt_add_one _) (le_max_left _ _)
  · simp only [calculate_new_interval]
    exact lt_of_lt_of_le (lt_add_one _) (le_max_left _ _)
  · intro h0 hm0
    simp only [calculate_new_interval]
    have h1 : deck.fail_interval_modifier * card.interval ≤ card.interval := by
      have := mul_le_mul_of_nonneg_right hm0 h0
      simpa using this
    exact lt_of_le_of_lt h1
      (lt_of_lt_of_le (lt_add_one _) (le_max_left _ _))

/-- Witness for `c1_amended` at a concrete input (interval 0, factor 1300,
default modifiers). -/
theorem c1_amended_witness :
    calculate_new_interval Score.FAIL c1wcard c1wdeck 0 <
      calculate_new_interval Score.HARD c1wcard c1wdeck 0 ∧
    calculate_new_interval Score.HARD c1wcard c1wdeck 0 <
      calculate_new_interval Score.PASS c1wcard c1wdeck 0 ∧
    calculate_new_interval Score.PASS c1wcard c1wdeck 0 <
      calculate_new_interval Score.EASY c1wcard c1wdeck 0 :=
  ⟨(c1_amended c1wcard c1wdeck 0).2 (by norm_num [c1wcard])
      (by norm_num [c1wdeck, new_deck, maybe_state]),
   (c1_amended c1wcard c1wdeck 0).1.1,
   (c1_amended c1wcard c1wdeck 0).1.2⟩

/-- Claim C4 counterexample card: interval 10, factor 1300, due at time 0;
reviewed at time 1/2 (half a day late). -/
def c4card : FlashCard :=
  ⟨"p.md", ["t"], "q", "a", 0, 10, 1300⟩

/-- Default-modifier deck used by several concrete checks (built through
`new_deck` with no prior state, hence modifiers 1.0 / 1.3 / 0.0). -/
def c4deck : Deck :=
  new_deck (some "t") [c4card] Option.none

/-- Claim C4 counterexample: half a day after the due time, the code's HARD
interval uses `d = floor(1/2) = 0` and yields 12, while the exact fractional
elapsed time of the claim would yield `(10 + 1/8) * 1.2 = 12.15`; the code
truncates the elapsed days, it does not use the exact value. -/
theorem c4_counterexample :
    calculate_new_interval Score.HARD c4card c4deck (1 / 2) ≠
      calculate_new_interval_specExact Score.HARD c4card c4deck (1 / 2) := by
  norm_num [calculate_new_interval, calculate_new_interval_specExact,
    c4card, c4deck, new_deck, maybe_state, max_def]

/-- Claim C4 (amended): the elapsed time used by `calculate_new_interval` is
the integer floor of the elapsed days (the `days` field of the Python
timedelta), so (i) the result only depends on that floor, (ii) it equals the
explicit-`d` computation at `d = ⌊now - due⌋`, and (iii) when the card is
reviewed early the floored day count is negative and is not clamped. -/
theorem c4_amended :
    (∀ (score : Score) (card : FlashCard) (deck : Deck) (now : ℚ),
       calculate_new_interval score card deck now =
         calculate_new_interval_d score card deck ⌊now - card.due⌋) ∧
    (∀ (score : Score) (card : FlashCard) (deck : Deck) (now now2 : ℚ),
       ⌊now - card.due⌋ = ⌊now2 - card.due⌋ →
       calculate_new_interval score card deck now =
         calculate_new_interval score card deck now2) ∧
    (∀ (card : FlashCard) (now : ℚ), now < card.due → ⌊now - card.due⌋ < 0) := by
  refine ⟨?_, ?_, ?_⟩
  · intro score card deck now
    cases score <;> rfl
  · intro score card deck now now2 h
    cases score <;> simp only [calculate_new_interval, h]
  · intro card now h
    have h2 : now - card.due < 0 := by linarith
    exact_mod_cast Int.floor_lt.mpr (by exact_mod_cast h2)

/-- Witness for `c4_amended`: at due time 1 and review time 0 (early review),
the floored day count is negative and the two computations agree. -/
theorem c4_amended_witness :
    ⌊(0 : ℚ) - c4wcard.due⌋ < 0 ∧
    calculate_new_interval Score.HARD c4wcard c4deck 0 =
      calculate_new_interval_d Score.HARD c4wcard c4deck ⌊(0 : ℚ) - c4wcard.due⌋ :=
  ⟨c4_amended.2.2 c4wcard 0 (by norm_num [c4wcard]),
   c4_amended.1 Score.HARD c4wcard c4deck 0⟩

/-- Claim C5 (confirmed): every grading step preserves the invariant
`factor ≥ 1300`; FAIL, HARD and EASY are floored at 1300 and PASS leaves the
factor unchanged. -/
theorem c5_factor_floor (score : Score) (card : FlashCard)
    (h : (1300 : ℚ) ≤ card.factor) :
    (1300 : ℚ) ≤ calculate_new_factor score card := by
  cases score <;> simp only [calculate_new_factor] <;>
    first
    | exact le_max_left _ _
    | exact h

/-- Witness for `c5_factor_floor` at a concrete card with factor 1300. -/
theorem c5_factor_floor_witness :
    (1300 : ℚ) ≤ c1wcard.factor ∧
    (1300 : ℚ) ≤ calculate_new_factor Score.FAIL c1wcard :=
  ⟨by norm_num [c1wcard], c5_factor_floor Score.FAIL c1wcard (by norm_num [c1wcard])⟩

/-- Claim C6 (confirmed): a fresh card (interval 0, factor 1300) graded
exactly at its due time under default deck modifiers yields intervals
0 / 1 / 2 / 3 and factors 1300 / 1300 / 1300 / 1450 for
FAIL / HARD / PASS / EASY. -/
theorem c6_scenario_a :
    calculate_new_interval Score.FAIL c1wcard c1wdeck 0 = 0 ∧
    calculate_new_interval Score.HARD c1wcard c1wdeck 0 = 1 ∧
    calculate_new_interval Score.PASS c1wcard c1wdeck 0 = 2 ∧
    calculate_new_interval Score.EASY c1wcard c1wdeck 0 = 3 ∧
    calculate_new_factor Score.FAIL c1wcard = 1300 ∧
    calculate_new_factor Score.HARD c1wcard = 1300 ∧
    calculate_new_factor Score.PASS c1wcard = 1300 ∧
    calculate_new_factor Score.EASY c1wcard = 1450 := by
  refine ⟨?_, ?_, ?_, ?_, ?_, ?_, ?_, ?_⟩ <;>
    norm_num [calculate_new_interval, calculate_new_factor, c1wcard, c1wdeck,
      new_deck, maybe_state, max_def]

end SchedulingClaims

/-! ### Review-session state machine (`run_repl`, src/anki.py lines 173-347) -/

/-- The result triple of `handle_answer_input`/`handle_score`
(src/anki.py lines 196-207): new interval, new factor, and
`due = datetime.now() + timedelta(interval)`, i.e. now plus the new interval
taken as days.  `stored` is `flash_cards[card_id]`, the card read back from
the card store. -/
def handle_answer_result (score : Score) (stored : FlashCard) (deck : Deck)
    (now : ℚ) : ℚ × ℚ × ℚ :=
  (calculate_new_interval score stored deck now,
   calculate_new_factor score stored,
   now + calculate_new_interval score stored deck now)

/-- The graded card written back by the loop body (src/anki.py lines
333-340): `update_flash_card(card, *handle_answer_input(card.path, ...))`,
where `card` is the card popped from the queue and the scheduling inputs are
read from the store entry at its path. -/
def gradedOf (score : Score) (card stored : FlashCard) (deck : Deck)
    (now : ℚ) : FlashCard :=
  update_flash_card card
    (handle_answer_result score stored deck now).1
    (handle_answer_result score stored deck now).2.1
    (handle_answer_result score stored deck now).2.2

/-- State of the interactive loop: the FIFO work queue (`shuffled_cards`) and
the mutable card store (`flash_cards`). -/
structure ReplState where
  queue : List FlashCard
  store : List (String × FlashCard)
deriving DecidableEq

/-- One iteration of the `while remaining > 0` loop (src/anki.py lines
329-343) for a given user grade: pop the front card, grade it against its
store entry, write it back into the store, and re-append it to the back of
the queue exactly when the new interval is 0.  On an empty queue the real
loop has already exited, so the step is the identity.  (In every reachable
state the popped card's path is a store key; Python would raise `KeyError`
otherwise, which the `getD` default makes unobservable here.) -/
def replStep (deck : Deck) (now : ℚ) (s : ReplState) (score : Score) :
    ReplState :=
  match s.queue with
  | [] => s
  | card :: rest =>
    let stored := (dictLookup s.store card.path).getD card
    let graded := gradedOf score card stored deck now
    { queue := rest ++ (if graded.interval = 0 then [graded] else []),
      store := dictInsert s.store card.path graded }

/-- A run of the loop driven by a list of user grades (one per processed
card), as performed before a quit command or an interrupt ends the session. -/
def runSession (deck : Deck) (now : ℚ) (s0 : ReplState)
    (grades : List Score) : ReplState :=
  grades.foldl (replStep deck now) s0

/-- The paths of the cards actually popped and graded during a run: the
grades beyond the point where the queue empties grade nothing. -/
def gradedPaths (deck : Deck) (now : ℚ) : ReplState → List Score → List String
  | _, [] => []
  | s, g :: gs =>
    match s.queue with
    | [] => gradedPaths deck now s gs
    | card :: _ => card.path :: gradedPaths deck now (replStep deck now s g) gs

section DictLemmas

variable {K V : Type} [DecidableEq K]

theorem dictLookup_nil (k : K) : dictLookup ([] : List (K × V)) k = none := rfl

theorem dictLookup_cons (p : K × V) (kvs : List (K × V)) (k : K) :
    dictLookup (p :: kvs) k = if p.1 = k then some p.2 else dictLookup kvs k := by
  by_cases h : p.1 = k
  · simp [dictLookup, List.find?_cons_of_pos, h]
  · simp [dictLookup, List.find?_cons_of_neg, h]

theorem dictLookup_map_replace_self (kvs : List (K × V)) (k : K) (v : V) :
    dictLookup (kvs.map fun p => if p.1 = k then (k, v) else p) k =
      if kvs.any (fun p => decide (p.1 = k)) then some v else none := by
  induction kvs with
  | nil => rfl
  | cons p t ih =>
    by_cases h : p.1 = k
    · rw [List.map_cons, if_pos h, dictLookup_cons]
      have hany : ((p :: t).any fun q => decide (q.1 = k)) = true := by
        simp [List.any_cons, h]
      rw [hany, if_pos rfl, if_pos rfl]
    · rw [List.map_cons, if_neg h, dictLookup_cons, if_neg h, ih]
      have hany : ((p :: t).any fun q => decide (q.1 = k)) =
          (t.any fun q => decide (q.1 = k)) := by
        simp [List.any_cons, h]
      rw [hany]

theorem dictLookup_map_replace_ne (kvs : List (K × V)) (k k' : K) (v : V)
    (hne : k' ≠ k) :
    dictLookup (kvs.map fun p => if p.1 = k then (k, v) else p) k' =
      dictLookup kvs k' := by
  induction kvs with
  | nil => rfl
  | cons p t ih =>
    by_cases h : p.1 = k
    · have hp : ¬ p.1 = k' := by rw [h]; exact Ne.symm hne
      rw [List.map_cons, if_pos h, dictLookup_cons, dictLookup_cons,
        if_neg hp, if_neg (show ¬ (k, v).1 = k' from Ne.symm hne), ih]
    · rw [List.map_cons, if_neg h, dictLookup_cons, dictLookup_cons, ih]

theorem dictLookup_eq_none_of_not_any (kvs : List (K × V)) (k : K)
    (h : kvs.any (fun p => decide (p.1 = k)) = false) :
    dictLookup kvs k = none := by
  induction kvs with
  | nil => rfl
  | cons p t ih =>
    simp only [List.any_cons, Bool.or_eq_false_iff, decide_eq_false_iff_not] at h
    rw [dictLookup_cons, if_neg h.1]
    exact ih (by simp [h.2])

theorem dictLookup_append_self (kvs : List (K × V)) (k : K) (v : V)
    (h : ∀ q ∈ kvs, ¬ q.1 = k) :
    dictLookup (kvs ++ [(k, v)]) k = some v := by
  induction kvs with
  | nil =>
    rw [List.nil_append, dictLookup_cons, if_pos rfl]
  | cons p t ih =>
    rw [List.cons_append, dictLookup_cons, if_neg (h p (by simp))]
    exact ih fun q hq => h q (by simp [hq])

theorem dictLookup_append_ne (kvs : List (K × V)) (k k' : K) (v : V)
    (hne : k' ≠ k) :
    dictLookup (kvs ++ [(k, v)]) k' = dictLookup kvs k' := by
  induction kvs with
  | nil =>
    rw [List.nil_append, dictLookup_cons,
      if_neg (show ¬ (k, v).1 = k' from Ne.symm hne)]
  | cons p t ih =>
    rw [List.cons_append, dictLookup_cons, dictLookup_cons, ih]

theorem dictLookup_dictInsert_self (kvs : List (K × V)) (k : K) (v : V) :
    dictLookup (dictInsert kvs k v) k = some v := by
  unfold dictInsert
  by_cases h : kvs.any (fun p => decide (p.1 = k)) = true
  · rw [if_pos h, dictLookup_map_replace_self, if_pos h]
  · rw [if_neg h]
    apply dictLookup_append_self
    intro q hq hc
    exact h (List.any_eq_true.mpr ⟨q, hq, by simp [hc]⟩)

theorem dictLookup_dictInsert_ne (kvs : List (K × V)) (k k' : K) (v : V)
    (hne : k' ≠ k) :
    dictLookup (dictInsert kvs k v) k' = dictLookup kvs k' := by
  unfold dictInsert
  by_cases h : kvs.any (fun p => decide (p.1 = k)) = true
  · rw [if_pos h, dictLookup_map_replace_ne _ _ _ _ hne]
  · rw [if_neg h, dictLookup_append_ne _ _ _ _ hne]

theorem mem_dictInsert {kvs : List (K × V)} {k : K} {v : V} {p : K × V}
    (hp : p ∈ dictInsert kvs k v) : p = (k, v) ∨ (p ∈ kvs ∧ p.1 ≠ k) := by
  unfold dictInsert at hp
  by_cases h : kvs.any (fun p => decide (p.1 = k)) = true
  · rw [if_pos h] at hp
    rcases List.mem_map.mp hp with ⟨q, hq, hqe⟩
    by_cases hqk : q.1 = k
    · left; rw [← hqe, if_pos hqk]
    · right
      rw [← hqe, if_neg hqk]
      exact ⟨hq, hqk⟩
  · rw [if_neg h] at hp
    rcases List.mem_append.mp hp with hin | hin
    · right
      refine ⟨hin, ?_⟩
      intro hc
      exact h (List.any_eq_true.mpr ⟨p, hin, by simpa using hc⟩)
    · left; simpa using hin

theorem mem_dictMerge {a b : List (K × V)} {p : K × V}
    (hp : p ∈ dictMerge a b) :
    p ∈ b ∨ (p ∈ a ∧ p.1 ∉ b.map Prod.fst) := by
  induction b generalizing a with
  | nil => exact Or.inr ⟨hp, by simp⟩
  | cons q t ih =>
    have hp2 : p ∈ dictMerge (dictInsert a q.1 q.2) t := hp
    rcases ih hp2 with hin | ⟨hin, hout⟩
    · exact Or.inl (List.mem_cons_of_mem _ hin)
    · rcases mem_dictInsert hin with he | ⟨hin2, hne⟩
      · left
        rw [he]
        exact List.mem_cons_self _ _
      · right
        refine ⟨hin2, ?_⟩
        simp only [List.map_cons, List.mem_cons]
        rintro (hc | hc)
        · exact hne hc
        · exact hout (by simpa using hc)

theorem dictLookup_dictMerge (a b : List (K × V)) (k : K)
    (hb : (b.map Prod.fst).Nodup) :
    dictLookup (dictMerge a b) k =
      if (dictLookup b k).isSome then dictLookup b k else dictLookup a k := by
  induction b generalizing a with
  | nil => simp [dictMerge, dictLookup_nil]
  | cons q t ih =>
    simp only [List.map_cons, List.nodup_cons] at hb
    have step : dictMerge a (q :: t) = dictMerge (dictInsert a q.1 q.2) t := rfl
    rw [step, ih _ hb.2, dictLookup_cons]
    by_cases hk : q.1 = k
    · subst hk
      have ht : dictLookup t q.1 = none := by
        apply dictLookup_eq_none_of_not_any
        by_contra hany
        rw [Bool.not_eq_false, List.any_eq_true] at hany
        rcases hany with ⟨r, hr, hre⟩
        rw [decide_eq_true_eq] at hre
        exact hb.1 (List.mem_map.mpr ⟨r, hr, hre⟩)
      simp [ht, dictLookup_dictInsert_self]
    · rw [if_neg hk]
      by_cases hs : (dictLookup t k).isSome
      · simp [hs]
      · simp only [hs, if_neg]
        simp only [Bool.not_eq_true] at hs
        simp [hs, dictLookup_dictInsert_ne _ _ _ _ (fun hc => hk hc.symm)]

theorem keys_map_replace (kvs : List (K × V)) (k : K) (v : V) :
    ((kvs.map fun p => if p.1 = k then (k, v) else p).map Prod.fst) =
      kvs.map Prod.fst := by
  induction kvs with
  | nil => rfl
  | cons p t ih =>
    simp only [List.map_cons, ih]
    by_cases hp : p.1 = k
    · rw [if_pos hp]
      simp [hp]
    · rw [if_neg hp]

theorem nodup_keys_dictInsert (kvs : List (K × V)) (k : K) (v : V)
    (h : (kvs.map Prod.fst).Nodup) :
    ((dictInsert kvs k v).map Prod.fst).Nodup := by
  unfold dictInsert
  by_cases hc : kvs.any (fun p => decide (p.1 = k)) = true
  · rw [if_pos hc, keys_map_replace]
    exact h
  · rw [if_neg hc]
    simp only [List.map_append, List.map_cons, List.map_nil]
    rw [List.nodup_append]
    refine ⟨h, List.nodup_singleton _, ?_⟩
    intro x hx
    simp only [List.mem_singleton]
    intro he
    subst he
    rcases List.mem_map.mp hx with ⟨q, hq, hqe⟩
    exact hc (List.any_eq_true.mpr ⟨q, hq, by simpa using hqe⟩)

end DictLemmas

/-- Claim C2: `filter_by_tag` with a `None` tag keeps nothing (the membership
test `None in c.tags` is false for every card), so the deck `main` builds for
a session started without a tag filter has no member cards at all — not the
"all cards" deck. -/
theorem c2_none_tag_filters_everything :
    (∀ cards : List FlashCard, filter_by_tag cards Option.none = []) ∧
    (∀ (cards : List FlashCard) (prior : Option Deck),
       (mainDeck Option.none cards prior).flash_cards = []) := by
  constructor
  · intro cards
    simp [filter_by_tag, tagMem]
  · intro cards prior
    simp [mainDeck, new_deck, filter_by_tag, tagMem]

/-- Claim C7 (confirmed): after the front card is graded and written back to
the store, it is re-appended to the back of the queue exactly when its new
interval is 0; with a non-zero interval the queue just loses its front; and
an empty queue is a fixpoint (the loop only runs while cards remain). -/
theorem c7_requeue_iff (deck : Deck) (now : ℚ) (card : FlashCard)
    (rest : List FlashCard) (store : List (String × FlashCard)) (score : Score)
    (hstore : dictLookup store card.path = some card) :
    ((gradedOf score card card deck now).interval = 0 →
      (replStep deck now ⟨card :: rest, store⟩ score).queue =
        rest ++ [gradedOf score card card deck now]) ∧
    ((gradedOf score card card deck now).interval ≠ 0 →
      (replStep deck now ⟨card :: rest, store⟩ score).queue = rest) ∧
    dictLookup (replStep deck now ⟨card :: rest, store⟩ score).store card.path =
      some (gradedOf score card card deck now) ∧
    (∀ store2 : List (String × FlashCard),
      replStep deck now ⟨[], store2⟩ score = ⟨[], store2⟩) := by
  refine ⟨?_, ?_, ?_, ?_⟩
  · intro h
    simp [replStep, hstore, h]
  · intro h
    simp [replStep, hstore, h]
  · simp [replStep, hstore, dictLookup_dictInsert_self]
  · intro store2
    rfl

/-- Witness for `c7_requeue_iff`: the fresh card failed at its due time gets
interval 0 and is re-appended; the store holds the graded card. -/
theorem c7_requeue_iff_witness :
    (replStep c1wdeck 0 ⟨[c1wcard], [(c1wcard.path, c1wcard)]⟩ Score.FAIL).queue =
      [gradedOf Score.FAIL c1wcard c1wcard c1wdeck 0] ∧
    dictLookup
        (replStep c1wdeck 0 ⟨[c1wcard], [(c1wcard.path, c1wcard)]⟩
          Score.FAIL).store c1wcard.path =
      some (gradedOf Score.FAIL c1wcard c1wcard c1wdeck 0) := by
  have h := c7_requeue_iff c1wdeck 0 c1wcard [] [(c1wcard.path, c1wcard)]
    Score.FAIL (by simp [dictLookup_cons])
  have hint : (gradedOf Score.FAIL c1wcard c1wcard c1wdeck 0).interval = 0 := by
    norm_num [gradedOf, handle_answer_result, update_flash_card,
      calculate_new_interval, c1wcard, c1wdeck, new_deck, maybe_state, max_def]
  exact ⟨by simpa using h.1 hint, h.2.2.1⟩

/-- Every store entry written by the loop is a graded card. -/
def isGradedEntry (deck : Deck) (now : ℚ) (o : Option FlashCard) : Prop :=
  ∃ (sc : Score) (card stored : FlashCard),
    o = some (gradedOf sc card stored deck now)

theorem replStep_store_frame (deck : Deck) (now : ℚ) (s : ReplState)
    (g : Score) (path : String)
    (h : ∀ card ∈ s.queue.take 1, card.path ≠ path) :
    dictLookup (replStep deck now s g).store path = dictLookup s.store path := by
  rcases s with ⟨queue, store⟩
  cases queue with
  | nil => rfl
  | cons card rest =>
    have hne : path ≠ card.path := by
      have := h card (by simp)
      exact fun hc => this hc.symm
    simp only [replStep]
    exact dictLookup_dictInsert_ne _ _ _ _ hne

theorem runSession_frame (deck : Deck) (now : ℚ) (grades : List Score)
    (s0 : ReplState) (path : String)
    (h : path ∉ gradedPaths deck now s0 grades) :
    dictLookup (runSession deck now s0 grades).store path =
      dictLookup s0.store path := by
  induction grades generalizing s0 with
  | nil => rfl
  | cons g gs ih =>
    have step : runSession deck now s0 (g :: gs) =
        runSession deck now (replStep deck now s0 g) gs := rfl
    rcases s0 with ⟨queue, store⟩
    cases queue with
    | nil =>
      have hpaths : gradedPaths deck now ⟨[], store⟩ (g :: gs) =
          gradedPaths deck now ⟨[], store⟩ gs := rfl
      rw [step]
      have hrepl : replStep deck now ⟨[], store⟩ g = ⟨[], store⟩ := rfl
      rw [hrepl]
      exact ih _ (by rw [hpaths] at h; exact h)
    | cons card rest =>
      have hpaths : gradedPaths deck now ⟨card :: rest, store⟩ (g :: gs) =
          card.path ::
            gradedPaths deck now (replStep deck now ⟨card :: rest, store⟩ g) gs :=
        rfl
      rw [hpaths] at h
      have hne : path ≠ card.path := fun hc => h (by simp [hc])
      have hrest : path ∉
          gradedPaths deck now (replStep deck now ⟨card :: rest, store⟩ g) gs :=
        fun hc => h (List.mem_cons_of_mem _ hc)
      rw [step, ih _ hrest]
      exact replStep_store_frame deck now ⟨card :: rest, store⟩ g path
        (by intro c hc; simp at hc; rw [hc]; exact fun he => hne he.symm)

theorem runSession_graded_stable (deck : Deck) (now : ℚ) (grades : List Score)
    (s : ReplState) (path : String)
    (h : isGradedEntry deck now (dictLookup s.store path)) :
    isGradedEntry deck now
      (dictLookup (runSession deck now s grades).store path) := by
  induction grades generalizing s with
  | nil => exact h
  | cons g gs ih =>
    have step : runSession deck now s (g :: gs) =
        runSession deck now (replStep deck now s g) gs := rfl
    rw [step]
    apply ih
    rcases s with ⟨queue, store⟩
    cases queue with
    | nil => exact h
    | cons card rest =>
      simp only [replStep]
      by_cases hp : path = card.path
      · subst hp
        rw [dictLookup_dictInsert_self]
        exact ⟨g, card, _, rfl⟩
      · rw [dictLookup_dictInsert_ne _ _ _ _ hp]
        exact h

/-- Claim C9 (confirmed): quitting after any number of gradings leaves every
card that was never graded at exactly its pre-session store entry (its due,
interval and factor untouched), while every graded path holds a card written
by the grading step. -/
theorem c9_quit_frame (deck : Deck) (now : ℚ) (grades : List Score)
    (s0 : ReplState) :
    (∀ path, path ∉ gradedPaths deck now s0 grades →
       dictLookup (runSession deck now s0 grades).store path =
         dictLookup s0.store path) ∧
    (∀ path, path ∈ gradedPaths deck now s0 grades →
       isGradedEntry deck now
         (dictLookup (runSession deck now s0 grades).store path)) := by
  constructor
  · intro path h
    exact runSession_frame deck now grades s0 path h
  · intro path h
    induction grades generalizing s0 with
    | nil => simp [gradedPaths] at h
    | cons g gs ih =>
      have step : runSession deck now s0 (g :: gs) =
          runSession deck now (replStep deck now s0 g) gs := rfl
      rcases s0 with ⟨queue, store⟩
      cases queue with
      | nil =>
        rw [step]
        have hrepl : replStep deck now ⟨[], store⟩ g = ⟨[], store⟩ := rfl
        rw [hrepl]
        exact ih _ (by exact h)
      | cons card rest =>
        have hpaths : gradedPaths deck now ⟨card :: rest, store⟩ (g :: gs) =
            card.path ::
              gradedPaths deck now (replStep deck now ⟨card :: rest, store⟩ g)
                gs := rfl
        rw [hpaths] at h
        rw [step]
        rcases List.mem_cons.mp h with he | hin
        · subst he
          apply runSession_graded_stable
          simp only [replStep]
          rw [dictLookup_dictInsert_self]
          exact ⟨g, card, _, rfl⟩
        · exact ih _ hin

/-- Witness for `c9_quit_frame`: grading the single due fresh card once, the
untouched path `"other.md"` keeps its original entry and the graded path
holds a graded card. -/
theorem c9_quit_frame_witness :
    dictLookup
        (runSession c1wdeck 0
          ⟨[c1wcard], [(c1wcard.path, c1wcard), ("other.md", c4wcard)]⟩
          [Score.PASS]).store "other.md" =
      some c4wcard ∧
    isGradedEntry c1wdeck 0
      (dictLookup
        (runSession c1wdeck 0
          ⟨[c1wcard], [(c1wcard.path, c1wcard), ("other.md", c4wcard)]⟩
          [Score.PASS]).store c1wcard.path) := by
  have h := c9_quit_frame c1wdeck 0 [Score.PASS]
    ⟨[c1wcard], [(c1wcard.path, c1wcard), ("other.md", c4wcard)]⟩
  constructor
  · have hmem : "other.md" ∉
        gradedPaths c1wdeck 0
          ⟨[c1wcard], [(c1wcard.path, c1wcard), ("other.md", c4wcard)]⟩
          [Score.PASS] := by
      simp [gradedPaths, c1wcard]
    rw [h.1 "other.md" hmem]
    simp [dictLookup_cons, c1wcard]
  · exact h.2 c1wcard.path (by simp [gradedPaths])

/-- Claim C10 (confirmed): the due timestamp a grading writes is the grading
time plus the new interval in days, and a grade producing interval 0 leaves
the card due exactly at the grading time (immediately due again). -/
theorem c10_due_eq_now_add_interval (score : Score) (card stored : FlashCard)
    (deck : Deck) (now : ℚ) :
    (gradedOf score card stored deck now).due =
      now + (gradedOf score card stored deck now).interval ∧
    ((gradedOf score card stored deck now).interval = 0 →
      (gradedOf score card stored deck now).due = now) := by
  constructor
  · rfl
  · intro h
    have h2 : (gradedOf score card stored deck now).due =
        now + (gradedOf score card stored deck now).interval := rfl
    rw [h2, h, add_zero]

/-- Witness for `c10_due_eq_now_add_interval`: failing the fresh card at its
due time gives interval 0 and leaves it due at the grading time. -/
theorem c10_due_eq_now_add_interval_witness :
    (gradedOf Score.FAIL c1wcard c1wcard c1wdeck 0).due = 0 :=
  (c10_due_eq_now_add_interval Score.FAIL c1wcard c1wcard c1wdeck 0).2
    (by norm_num [gradedOf, handle_answer_result, update_flash_card,
      calculate_new_interval, c1wcard, c1wdeck, new_deck, maybe_state, max_def])

/-! ### Persistence layer (`serialise` / `deserialise`, src/anki.py lines 93-134)

The document timestamp text: `serialise` writes `str(c.due)` and
`deserialise` reads it back with `datetime.fromisoformat`; both are Python
standard-library functions outside src/.  They are modelled from the spec
("timestamps in a sortable, locale-independent textual format", "parsed from
a fixed textual timestamp format") as an injective textual rendering of the
rational day count together with its exact parse. -/

/-- Decimal digit to its character. -/
def toDigitChar (d : Nat) : Char := Char.ofNat (48 + d)

/-- Character back to a decimal digit ('0'-'9'), else a parse error. -/
def ofDigitChar (c : Char) : Option Nat :=
  if 48 ≤ c.toNat ∧ c.toNat ≤ 57 then some (c.toNat - 48) else none

/-- Most-significant-first decimal rendering of a natural number (the empty
list for 0, which stays uniquely parseable inside the num/den format). -/
def natToChars (n : Nat) : List Char :=
  ((Nat.digits 10 n).map toDigitChar).reverse

/-- Parse of `natToChars`. -/
def charsToNat (cs : List Char) : Option Nat :=
  (cs.reverse.mapM ofDigitChar).map (Nat.ofDigits 10)

theorem ofDigitChar_toDigitChar (d : Nat) (hd : d < 10) :
    ofDigitChar (toDigitChar d) = some d := by
  interval_cases d <;> rfl

theorem toDigitChar_ne_slash (d : Nat) (hd : d < 10) :
    toDigitChar d ≠ '/' := by
  interval_cases d <;> decide

theorem toDigitChar_ne_dash (d : Nat) (hd : d < 10) :
    toDigitChar d ≠ '-' := by
  interval_cases d <;> decide

theorem mapM_ofDigitChar (ds : List Nat) (h : ∀ d ∈ ds, d < 10) :
    (ds.map toDigitChar).mapM ofDigitChar = some ds := by
  induction ds with
  | nil => rfl
  | cons d t ih =>
    rw [List.map_cons, List.mapM_cons, ofDigitChar_toDigitChar d (h d (by simp)),
      ih fun x hx => h x (by simp [hx])]
    rfl

theorem charsToNat_natToChars (n : Nat) : charsToNat (natToChars n) = some n := by
  unfold charsToNat natToChars
  rw [List.reverse_reverse,
    mapM_ofDigitChar _ fun d hd => Nat.digits_lt_base (by norm_num) hd]
  simp [Nat.ofDigits_digits]

theorem mem_natToChars {c : Char} {n : Nat} (hc : c ∈ natToChars n) :
    ∃ d, d < 10 ∧ c = toDigitChar d := by
  unfold natToChars at hc
  rw [List.mem_reverse] at hc
  rcases List.mem_map.mp hc with ⟨d, hd, he⟩
  exact ⟨d, Nat.digits_lt_base (by norm_num) hd, he.symm⟩

theorem takeWhile_digits_slash (a b : List Char) (p : Char → Bool)
    (ha : ∀ c ∈ a, p c = true) (hx : p '/' = false) :
    (a ++ '/' :: b).takeWhile p = a ∧ (a ++ '/' :: b).dropWhile p = '/' :: b := by
  induction a with
  | nil =>
    constructor
    · rw [List.nil_append, List.takeWhile_cons, hx]
      rfl
    · rw [List.nil_append, List.dropWhile_cons, hx]
      rfl
  | cons c t ih =>
    have hc : p c = true := ha c (by simp)
    have iht := ih fun x hx2 => ha x (by simp [hx2])
    constructor
    · rw [List.cons_append, List.takeWhile_cons, hc, iht.1]
      rfl
    · rw [List.cons_append, List.dropWhile_cons, hc]
      exact iht.2

/-- Modelled from the spec: the textual timestamp written for `due`
(`str(c.due)` in `card_as_dict`, src/anki.py line 95), rendered as
`[-]num/den` of the rational day count. -/
def strDatetime (q : ℚ) : String :=
  String.mk ((if q.num < 0 then ['-'] else []) ++
    (natToChars q.num.natAbs ++ '/' :: natToChars q.den))

/-- Sign-aware parse of the digits after an optional leading minus. -/
def fromRatChars (neg : Bool) (cs : List Char) : Option ℚ :=
  match charsToNat (cs.takeWhile fun c => decide (c ≠ '/')),
      charsToNat ((cs.dropWhile fun c => decide (c ≠ '/')).tail) with
  | some n, some d => some ((if neg then -1 else 1) * (n : ℚ) / (d : ℚ))
  | _, _ => none

/-- Modelled from the spec: `datetime.fromisoformat` on the persisted
timestamp text (src/anki.py line 114); the exact parse of `strDatetime`,
failing on malformed text. -/
def fromisoformat (s : String) : Option ℚ :=
  if s.data.head? = some '-' then fromRatChars true s.data.tail
  else fromRatChars false s.data

theorem fromRatChars_encode (neg : Bool) (n m : Nat) :
    fromRatChars neg (natToChars n ++ '/' :: natToChars m) =
      some ((if neg then -1 else 1) * (n : ℚ) / (m : ℚ)) := by
  have hsplit := takeWhile_digits_slash (natToChars n) (natToChars m)
    (fun c => decide (c ≠ '/'))
    (by
      intro c hc
      rcases mem_natToChars hc with ⟨d, hd, he⟩
      simp [he, toDigitChar_ne_slash d hd])
    (by simp)
  unfold fromRatChars
  rw [hsplit.1, hsplit.2, List.tail_cons, charsToNat_natToChars,
    charsToNat_natToChars]

theorem head_natToChars_ne_dash (n : Nat) (b : List Char) :
    ¬ ((natToChars n ++ '/' :: b).head? = some '-') := by
  intro h
  cases hn : natToChars n with
  | nil =>
    rw [hn] at h
    simp at h
  | cons c t =>
    rw [hn] at h
    simp only [List.cons_append, List.head?_cons, Option.some.injEq] at h
    have hc : c ∈ natToChars n := by rw [hn]; simp
    rcases mem_natToChars hc with ⟨d, hd, he⟩
    exact toDigitChar_ne_dash d hd (he ▸ h)

/-- The timestamp text parses back to exactly the timestamp it was rendered
from. -/
theorem fromisoformat_strDatetime (q : ℚ) :
    fromisoformat (strDatetime q) = some q := by
  unfold fromisoformat strDatetime
  by_cases hneg : q.num < 0
  · rw [if_pos hneg]
    have hdata : (String.mk ((['-'] : List Char) ++
        (natToChars q.num.natAbs ++ '/' :: natToChars q.den))).data =
        '-' :: (natToChars q.num.natAbs ++ '/' :: natToChars q.den) := rfl
    rw [hdata]
    rw [if_pos (by simp)]
    rw [List.tail_cons, fromRatChars_encode]
    have habs : ((q.num.natAbs : ℚ)) = -(q.num : ℚ) := by
      have h1 : (q.num.natAbs : ℤ) = -q.num :=
        Int.ofNat_natAbs_of_nonpos (le_of_lt hneg)
      calc ((q.num.natAbs : ℚ)) = ((q.num.natAbs : ℤ) : ℚ) :=
            (Int.cast_natCast _).symm
        _ = ((-q.num : ℤ) : ℚ) := by rw [h1]
        _ = -(q.num : ℚ) := by push_cast; ring
    rw [if_pos rfl, habs]
    congr 1
    have hmul : (-1 : ℚ) * -(q.num : ℚ) = (q.num : ℚ) := by ring
    rw [hmul, Rat.num_div_den]
  · rw [if_neg hneg]
    have hdata : (String.mk (([] : List Char) ++
        (natToChars q.num.natAbs ++ '/' :: natToChars q.den))).data =
        natToChars q.num.natAbs ++ '/' :: natToChars q.den := rfl
    rw [hdata]
    rw [if_neg (head_natToChars_ne_dash _ _), fromRatChars_encode]
    have habs : ((q.num.natAbs : ℚ)) = (q.num : ℚ) := by
      have h1 : (q.num.natAbs : ℤ) = q.num := Int.natAbs_of_nonneg (not_lt.mp hneg)
      calc ((q.num.natAbs : ℚ)) = ((q.num.natAbs : ℤ) : ℚ) :=
            (Int.cast_natCast _).symm
        _ = (q.num : ℚ) := by rw [h1]
    rw [if_neg (by simp), habs, one_mul, Rat.num_div_den]

/-- JSON values, as written by `json.dumps` and read back by `json.loads`.
(`sort_keys=True` only permutes object entries and the parsed maps are read
by key lookup, so entry order is left as constructed.) -/
inductive Json where
  | str : String → Json
  | num : ℚ → Json
  | null : Json
  | arr : List Json → Json
  | obj : List (String × Json) → Json

/-- Python values reaching `json.dumps` inside `serialise`: strings, numbers,
`None`, raw `datetime` objects (which `json.dumps` rejects with a
`TypeError`), lists/tuples (a namedtuple is encoded as a JSON array), and
dicts whose keys are strings or `None` (`json.dumps` turns a `None` key into
the string key `"null"`). -/
inductive PyVal where
  | str : String → PyVal
  | num : ℚ → PyVal
  | datetime : ℚ → PyVal
  | pynone : PyVal
  | list : List PyVal → PyVal
  | dict : List (Option String × PyVal) → PyVal

/-- `json.dumps` key conversion: a `None` dict key is written as `"null"`. -/
def keyStr : Option String → String
  | some s => s
  | none => "null"

mutual

/-- `json.dumps` on an embedded Python value: `none` is the `TypeError`
raised for a value (such as a raw `datetime`) that is not JSON
serialisable. -/
def toJson : PyVal → Option Json
  | .str s => some (.str s)
  | .num q => some (.num q)
  | .datetime _ => none
  | .pynone => some .null
  | .list vs => (toJsonList vs).map Json.arr
  | .dict kvs => (toJsonKVs kvs).map Json.obj

def toJsonList : List PyVal → Option (List Json)
  | [] => some []
  | v :: vs =>
    match toJson v, toJsonList vs with
    | some j, some js => some (j :: js)
    | _, _ => none

def toJsonKVs : List (Option String × PyVal) → Option (List (String × Json))
  | [] => some []
  | (k, v) :: kvs =>
    match toJson v, toJsonKVs kvs with
    | some j, some js => some ((keyStr k, j) :: js)
    | _, _ => none

end

/-- `card_as_dict` inside `serialise` (src/anki.py lines 94-95):
`{**c._asdict(), 'due': str(c.due)}`. -/
def card_as_dict (c : FlashCard) : PyVal :=
  .dict [(some "path", .str c.path),
         (some "tags", .list (c.tags.map PyVal.str)),
         (some "question", .str c.question),
         (some "answer", .str c.answer),
         (some "due", .str (strDatetime c.due)),
         (some "interval", .num c.interval),
         (some "factor", .num c.factor)]

/-- A prior `FlashCard` that `serialise` leaves as a raw namedtuple (it only
`_asdict()`s the decks, src/anki.py line 103, not the prior cards on line
99): `json.dumps` sees a tuple — a JSON array of the fields in order — whose
`due` member is a raw `datetime`. -/
def pyFlashCardTuple (c : FlashCard) : PyVal :=
  .list [.str c.path, .list (c.tags.map PyVal.str), .str c.question,
         .str c.answer, .datetime c.due, .num c.interval, .num c.factor]

/-- `d._asdict()` for a deck (src/anki.py lines 103-104). -/
def deck_as_dict (d : Deck) : PyVal :=
  .dict [(some "tag", match d.tag with | some t => .str t | none => .pynone),
         (some "flash_cards", .list (d.flash_cards.map PyVal.str)),
         (some "standard_interval_modifier", .num d.standard_interval_modifier),
         (some "easy_interval_modifier", .num d.easy_interval_modifier),
         (some "fail_interval_modifier", .num d.fail_interval_modifier)]

/-- The decks dict built by `serialise` (src/anki.py lines 102-105): the
prior decks converted with `_asdict()`, then the active deck inserted at its
tag key. -/
def serialiseDecksPy (deck : Deck) (state : AnkiState) :
    List (Option String × PyVal) :=
  dictInsert (state.decks.map fun td => (some td.1, deck_as_dict td.2))
    deck.tag (deck_as_dict deck)

/-- The cards dict built by `serialise` (src/anki.py lines 98-101):
`{**state.flash_cards, **{path: card_as_dict(card) ...}}` — prior cards kept
as raw namedtuples, session cards converted to dicts. -/
def serialiseCardsPy (flash_cards : List (String × FlashCard))
    (state : AnkiState) : List (Option String × PyVal) :=
  dictMerge (state.flash_cards.map fun pc => (some pc.1, pyFlashCardTuple pc.2))
    (flash_cards.map fun pc => (some pc.1, card_as_dict pc.2))

/-- `serialise` (src/anki.py lines 93-108): build the merged two-map document
and hand it to `json.dumps`; `none` is the `TypeError` escape. -/
def serialise (flash_cards : List (String × FlashCard)) (deck : Deck)
    (state : AnkiState) : Option Json :=
  toJson (.dict [(some "decks", .dict (serialiseDecksPy deck state)),
                 (some "flash_cards", .dict (serialiseCardsPy flash_cards state))])

/-- A JSON string leaf, else a parse error. -/
def getStr : Json → Option String
  | .str s => some s
  | _ => none

/-- Parse a JSON array of strings into a string list. -/
def parseStrList : List Json → Option (List String)
  | [] => some []
  | j :: js =>
    match getStr j, parseStrList js with
    | some s, some t => some (s :: t)
    | _, _ => none

/-- `card_from_dict` inside `deserialise` (src/anki.py lines 111-117):
rebuild a `FlashCard` from a JSON object, parsing `due` from its timestamp
text and coercing `interval`/`factor` to numbers; any missing or malformed
field is a fatal load error (`none`). -/
def card_from_dict (j : Json) : Option FlashCard :=
  match j with
  | .obj d =>
    match dictLookup d "path", dictLookup d "tags", dictLookup d "question",
        dictLookup d "answer", dictLookup d "due", dictLookup d "interval",
        dictLookup d "factor" with
    | some (.str path), some (.arr tagsJ), some (.str question),
        some (.str answer), some (.str dueS), some (.num interval),
        some (.num factor) =>
      match parseStrList tagsJ, fromisoformat dueS with
      | some tags, some due =>
        some ⟨path, tags, question, answer, due, interval, factor⟩
      | _, _ => none
    | _, _, _, _, _, _, _ => none
  | _ => none

/-- The `tag` field of a persisted deck: JSON `null` was a `None` tag. -/
def parseTag : Json → Option (Option String)
  | .str s => some (some s)
  | .null => some none
  | _ => none

/-- `deck_from_dict` inside `deserialise` (src/anki.py lines 119-125). -/
def deck_from_dict (j : Json) : Option Deck :=
  match j with
  | .obj d =>
    match dictLookup d "tag", dictLookup d "flash_cards",
        dictLookup d "standard_interval_modifier",
        dictLookup d "easy_interval_modifier",
        dictLookup d "fail_interval_modifier" with
    | some tagJ, some (.arr fcJ), some (.num sm), some (.num em),
        some (.num fm) =>
      match parseTag tagJ, parseStrList fcJ with
      | some tag, some fcs => some ⟨tag, fcs, sm, em, fm⟩
      | _, _ => none
    | _, _, _, _, _ => none
  | _ => none

/-- Parse the `decks` object entry by entry. -/
def parseDecks : List (String × Json) → Option (List (String × Deck))
  | [] => some []
  | (k, j) :: t =>
    match deck_from_dict j, parseDecks t with
    | some d, some ds => some ((k, d) :: ds)
    | _, _ => none

/-- Parse the `flash_cards` object entry by entry. -/
def parseCards : List (String × Json) → Option (List (String × FlashCard))
  | [] => some []
  | (k, j) :: t =>
    match card_from_dict j, parseCards t with
    | some c, some cs => some ((k, c) :: cs)
    | _, _ => none

/-- `deserialise` (src/anki.py lines 110-134): the two top-level maps default
to empty (`state.get('decks', {})`), every entry inside them must parse. -/
def deserialise (j : Json) : Option AnkiState :=
  match j with
  | .obj top =>
    match (dictLookup top "decks").getD (.obj []),
        (dictLookup top "flash_cards").getD (.obj []) with
    | .obj dJ, .obj cJ =>
      match parseDecks dJ, parseCards cJ with
      | some decks, some cards => some ⟨decks, cards⟩
      | _, _ => none
    | _, _ => none
  | _ => none

/-- `anki_state.decks.get(deck_tag)` in `main` (src/anki.py line 368): a
`None` tag is never a key of a dict parsed from JSON, so it finds nothing. -/
def decksGet (decks : List (String × Deck)) (tag : Option String) : Option Deck :=
  match tag with
  | some t => dictLookup decks t
  | none => none

/-! ### Round-trip lemmas for the persistence layer -/

/-- The JSON object `json.dumps` produces for a session card dict. -/
def cardJson (c : FlashCard) : Json :=
  .obj [("path", .str c.path),
        ("tags", .arr (c.tags.map Json.str)),
        ("question", .str c.question),
        ("answer", .str c.answer),
        ("due", .str (strDatetime c.due)),
        ("interval", .num c.interval),
        ("factor", .num c.factor)]

/-- The JSON object `json.dumps` produces for a deck dict. -/
def deckJson (d : Deck) : Json :=
  .obj [("tag", match d.tag with | some t => .str t | none => .null),
        ("flash_cards", .arr (d.flash_cards.map Json.str)),
        ("standard_interval_modifier", .num d.standard_interval_modifier),
        ("easy_interval_modifier", .num d.easy_interval_modifier),
        ("fail_interval_modifier", .num d.fail_interval_modifier)]

theorem toJsonList_strs (l : List String) :
    toJsonList (l.map PyVal.str) = some (l.map Json.str) := by
  induction l with
  | nil => simp [toJsonList]
  | cons s t ih => simp [toJsonList, toJson, ih]

theorem toJson_card_as_dict (c : FlashCard) :
    toJson (card_as_dict c) = some (cardJson c) := by
  simp [card_as_dict, cardJson, toJson, toJsonKVs, toJsonList_strs, keyStr]

theorem toJson_deck_as_dict (d : Deck) :
    toJson (deck_as_dict d) = some (deckJson d) := by
  cases h : d.tag with
  | none => simp [deck_as_dict, deckJson, h, toJson, toJsonKVs, toJsonList_strs,
      keyStr]
  | some t => simp [deck_as_dict, deckJson, h, toJson, toJsonKVs,
      toJsonList_strs, keyStr]

theorem parseStrList_strs (l : List String) :
    parseStrList (l.map Json.str) = some l := by
  induction l with
  | nil => rfl
  | cons s t ih => simp [parseStrList, getStr, ih]

theorem card_from_dict_cardJson (c : FlashCard) :
    card_from_dict (cardJson c) = some c := by
  simp [cardJson, card_from_dict, dictLookup_cons, parseStrList_strs,
    fromisoformat_strDatetime]

theorem deck_from_dict_deckJson (d : Deck) :
    deck_from_dict (deckJson d) = some d := by
  cases h : d.tag with
  | none =>
    simp only [deckJson, h, deck_from_dict]
    simp [dictLookup_cons, parseStrList_strs, parseTag]
    cases d
    simp_all
  | some t =>
    simp only [deckJson, h, deck_from_dict]
    simp [dictLookup_cons, parseStrList_strs, parseTag]
    cases d
    simp_all

/-- Decoding applied by `deserialise` to each serialised deck value. -/
def decodeDeck (v : PyVal) : Deck :=
  (deck_from_dict ((toJson v).getD .null)).getD ⟨none, [], 0, 0, 0⟩

/-- Decoding applied by `deserialise` to each serialised card value. -/
def decodeCard (v : PyVal) : FlashCard :=
  (card_from_dict ((toJson v).getD .null)).getD ⟨"", [], "", "", 0, 0, 0⟩

theorem decodeDeck_deck_as_dict (d : Deck) : decodeDeck (deck_as_dict d) = d := by
  simp [decodeDeck, toJson_deck_as_dict, deck_from_dict_deckJson]

theorem decodeCard_card_as_dict (c : FlashCard) :
    decodeCard (card_as_dict c) = c := by
  simp [decodeCard, toJson_card_as_dict, card_from_dict_cardJson]

theorem toJsonKVs_of_good (kvs : List (Option String × PyVal))
    (h : ∀ p ∈ kvs, (toJson p.2).isSome) :
    toJsonKVs kvs =
      some (kvs.map fun p => (keyStr p.1, (toJson p.2).getD .null)) := by
  induction kvs with
  | nil => rfl
  | cons p t ih =>
    rcases p with ⟨k, v⟩
    obtain ⟨j, hj⟩ := Option.isSome_iff_exists.mp (h (k, v) (by simp))
    simp [toJsonKVs, hj, ih fun q hq => h q (by simp [hq])]

theorem parseDecks_of_good (entries : List (String × Json))
    (h : ∀ p ∈ entries, (deck_from_dict p.2).isSome) :
    parseDecks entries =
      some (entries.map fun p =>
        (p.1, (deck_from_dict p.2).getD ⟨none, [], 0, 0, 0⟩)) := by
  induction entries with
  | nil => rfl
  | cons p t ih =>
    rcases p with ⟨k, j⟩
    obtain ⟨d, hd⟩ := Option.isSome_iff_exists.mp (h (k, j) (by simp))
    simp [parseDecks, hd, ih fun q hq => h q (by simp [hq])]

theorem parseCards_of_good (entries : List (String × Json))
    (h : ∀ p ∈ entries, (card_from_dict p.2).isSome) :
    parseCards entries =
      some (entries.map fun p =>
        (p.1, (card_from_dict p.2).getD ⟨"", [], "", "", 0, 0, 0⟩)) := by
  induction entries with
  | nil => rfl
  | cons p t ih =>
    rcases p with ⟨k, j⟩
    obtain ⟨c, hc⟩ := Option.isSome_iff_exists.mp (h (k, j) (by simp))
    simp [parseCards, hc, ih fun q hq => h q (by simp [hq])]

theorem serialiseDecksPy_good (deck : Deck) (state : AnkiState) :
    ∀ p ∈ serialiseDecksPy deck state, (toJson p.2).isSome := by
  intro p hp
  rcases mem_dictInsert hp with he | ⟨hin, _⟩
  · rw [he]
    simp [toJson_deck_as_dict]
  · rcases List.mem_map.mp hin with ⟨td, _, he2⟩
    rw [← he2]
    simp [toJson_deck_as_dict]

theorem serialiseDecksPy_keys (deck : Deck) (state : AnkiState)
    (h : deck.tag ≠ none) :
    ∀ p ∈ serialiseDecksPy deck state, p.1 ≠ none := by
  intro p hp
  rcases mem_dictInsert hp with he | ⟨hin, _⟩
  · rw [he]
    exact h
  · rcases List.mem_map.mp hin with ⟨td, _, he2⟩
    rw [← he2]
    simp

theorem serialiseCardsPy_good (store : List (String × FlashCard))
    (state : AnkiState)
    (hsub : ∀ p ∈ state.flash_cards.map Prod.fst, p ∈ store.map Prod.fst) :
    ∀ p ∈ serialiseCardsPy store state, (toJson p.2).isSome := by
  intro p hp
  rcases mem_dictMerge hp with hin | ⟨hin, hout⟩
  · rcases List.mem_map.mp hin with ⟨pc, _, he⟩
    rw [← he]
    simp [toJson_card_as_dict]
  · rcases List.mem_map.mp hin with ⟨pc, hpc, he⟩
    exfalso
    apply hout
    have h1 : pc.1 ∈ state.flash_cards.map Prod.fst :=
      List.mem_map.mpr ⟨pc, hpc, rfl⟩
    rcases List.mem_map.mp (hsub pc.1 h1) with ⟨qc, hqc, he2⟩
    rw [← he]
    exact List.mem_map.mpr ⟨(some qc.1, card_as_dict qc.2),
      List.mem_map.mpr ⟨qc, hqc, rfl⟩, by simp [he2]⟩

theorem serialiseCardsPy_keys (store : List (String × FlashCard))
    (state : AnkiState) :
    ∀ p ∈ serialiseCardsPy store state, p.1 ≠ none := by
  intro p hp
  rcases mem_dictMerge hp with hin | ⟨hin, _⟩
  · rcases List.mem_map.mp hin with ⟨pc, _, he⟩
    rw [← he]
    simp
  · rcases List.mem_map.mp hin with ⟨pc, _, he⟩
    rw [← he]
    simp

theorem dictLookup_map_pair {K K2 V V2 : Type} [DecidableEq K] [DecidableEq K2]
    (kf : K → K2) (vf : V → V2) (hinj : Function.Injective kf)
    (kvs : List (K × V)) (k : K) :
    dictLookup (kvs.map fun p => (kf p.1, vf p.2)) (kf k) =
      (dictLookup kvs k).map vf := by
  induction kvs with
  | nil => rfl
  | cons p t ih =>
    rw [List.map_cons, dictLookup_cons, dictLookup_cons]
    by_cases h : p.1 = k
    · rw [if_pos (show (kf p.1, vf p.2).1 = kf k from congrArg kf h), if_pos h]
      rfl
    · rw [if_neg (show ¬ (kf p.1, vf p.2).1 = kf k from fun hc => h (hinj hc)),
        if_neg h, ih]

theorem dictLookup_map_keyStr {V V2 : Type} (kvs : List (Option String × V))
    (f : V → V2) (x : String) (h : ∀ p ∈ kvs, p.1 ≠ none) :
    dictLookup (kvs.map fun p => (keyStr p.1, f p.2)) x =
      (dictLookup kvs (some x)).map f := by
  induction kvs with
  | nil => rfl
  | cons p t ih =>
    obtain ⟨s, hs⟩ : ∃ s, p.1 = some s := by
      cases hp : p.1 with
      | none => exact absurd hp (h p (by simp))
      | some s => exact ⟨s, rfl⟩
    rw [List.map_cons, dictLookup_cons, dictLookup_cons, hs]
    by_cases hx : s = x
    · rw [if_pos (show keyStr (some s) = x from hx),
        if_pos (show (some s : Option String) = some x from congrArg some hx)]
      rfl
    · rw [if_neg (show ¬ keyStr (some s) = x from hx),
        if_neg (show ¬ (some s : Option String) = some x from
          fun hc => hx (Option.some.injEq _ _ ▸ hc)),
        ih fun q hq => h q (by simp [hq])]

theorem dictLookup_eq_none_iff {K V : Type} [DecidableEq K]
    (kvs : List (K × V)) (k : K) :
    dictLookup kvs k = none ↔ k ∉ kvs.map Prod.fst := by
  induction kvs with
  | nil => simp [dictLookup_nil]
  | cons p t ih =>
    rw [dictLookup_cons]
    by_cases h : p.1 = k
    · simp [h]
    · simp only [if_neg h, ih, List.map_cons, List.mem_cons]
      constructor
      · rintro hk (hc | hc)
        · exact h hc.symm
        · exact hk hc
      · intro hk hc
        exact hk (Or.inr hc)

/-- The parsed form of a successfully dumped document: `deserialise` after
`serialise` yields exactly the two serialised maps with string keys
(`keyStr`) and decoded values, provided every prior card is also a session
card (otherwise `json.dumps` fails on the raw prior namedtuple, claim C3). -/
theorem deserialise_serialise (store : List (String × FlashCard)) (deck : Deck)
    (prior : AnkiState)
    (hsub : ∀ p ∈ prior.flash_cards.map Prod.fst, p ∈ store.map Prod.fst) :
    (serialise store deck prior).bind deserialise =
      some ⟨(serialiseDecksPy deck prior).map
              (fun p => (keyStr p.1, decodeDeck p.2)),
            (serialiseCardsPy store prior).map
              (fun p => (keyStr p.1, decodeCard p.2))⟩ := by
  have hD := toJsonKVs_of_good _ (serialiseDecksPy_good deck prior)
  have hC := toJsonKVs_of_good _ (serialiseCardsPy_good store prior hsub)
  have hser : serialise store deck prior =
      some (.obj
        [("decks", .obj ((serialiseDecksPy deck prior).map fun p =>
            (keyStr p.1, (toJson p.2).getD .null))),
         ("flash_cards", .obj ((serialiseCardsPy store prior).map fun p =>
            (keyStr p.1, (toJson p.2).getD .null)))]) := by
    simp [serialise, toJson, toJsonKVs, hD, hC, keyStr]
  rw [hser]
  have hbind : ∀ (j : Json), (some j).bind deserialise = deserialise j :=
    fun _ => rfl
  rw [hbind]
  have hgoodJD : ∀ p ∈ (serialiseDecksPy deck prior).map fun p =>
      (keyStr p.1, (toJson p.2).getD .null), (deck_from_dict p.2).isSome := by
    intro p hp
    rcases List.mem_map.mp hp with ⟨q, hq, he⟩
    have hv : ∃ d : Deck, q.2 = deck_as_dict d := by
      rcases mem_dictInsert hq with he2 | ⟨hin, _⟩
      · exact ⟨deck, by rw [he2]⟩
      · rcases List.mem_map.mp hin with ⟨td, _, he3⟩
        exact ⟨td.2, by rw [← he3]⟩
    rcases hv with ⟨d, hd⟩
    rw [← he]
    simp [hd, toJson_deck_as_dict, deck_from_dict_deckJson]
  have hgoodJC : ∀ p ∈ (serialiseCardsPy store prior).map fun p =>
      (keyStr p.1, (toJson p.2).getD .null), (card_from_dict p.2).isSome := by
    intro p hp
    rcases List.mem_map.mp hp with ⟨q, hq, he⟩
    have hs := serialiseCardsPy_good store prior hsub q hq
    have hv : ∃ c : FlashCard, q.2 = card_as_dict c := by
      rcases mem_dictMerge hq with hin | ⟨hin, hout⟩
      · rcases List.mem_map.mp hin with ⟨pc, _, he2⟩
        exact ⟨pc.2, by rw [← he2]⟩
      · rcases List.mem_map.mp hin with ⟨pc, hpc, he2⟩
        exfalso
        apply hout
        have h1 : pc.1 ∈ prior.flash_cards.map Prod.fst :=
          List.mem_map.mpr ⟨pc, hpc, rfl⟩
        rcases List.mem_map.mp (hsub pc.1 h1) with ⟨qc, hqc, he3⟩
        rw [← he2]
        exact List.mem_map.mpr ⟨(some qc.1, card_as_dict qc.2),
          List.mem_map.mpr ⟨qc, hqc, rfl⟩, by simp [he3]⟩
    rcases hv with ⟨c, hc⟩
    rw [← he]
    simp [hc, toJson_card_as_dict, card_from_dict_cardJson]
  simp [deserialise, dictLookup_cons, parseDecks_of_good _ hgoodJD,
    parseCards_of_good _ hgoodJC, List.map_map, decodeDeck, decodeCard,
    Function.comp]

/-- Orphan card of the claim C3 failing input: present in the prior persisted
document, absent from the current session card store. -/
def c3old : FlashCard := ⟨"old.md", ["t"], "q1", "a1", 0, 1, 1300⟩

/-- Session card of the claim C3 failing input. -/
def c3new : FlashCard := ⟨"new.md", ["t"], "q2", "a2", 0, 0, 1300⟩

/-- Prior persisted document of the claim C3 failing input: it holds the
card `old.md`, whose note file no longer exists. -/
def c3prior : AnkiState := ⟨[], [("old.md", c3old)]⟩

/-- Active deck of the claim C3 failing input. -/
def c3deck : Deck := new_deck (some "t") [c3new] Option.none

/-- Claim C3 evaluated at the failing input: with a prior card absent from
the session store, `serialise` hands the raw prior `FlashCard` namedtuple
(prior decks get `_asdict()`, prior cards do not) straight to `json.dumps`,
which rejects its `datetime` field — a `TypeError` crash (`none`) instead of
the claimed well-formed document keeping the orphan intact. -/
theorem c3_orphan_crash :
    serialise [("new.md", c3new)] c3deck c3prior = none := by
  rfl

/-- Claim C8 (amended): for a deck with a string tag and a prior document
every one of whose cards is also in the session store (an orphan prior card
makes `serialise` fail instead, claim C3), `deserialise ∘ serialise` yields a
state whose card map equals the session store, whose entry at the active tag
is exactly the active deck, and whose other deck entries are exactly the
prior document's decks — all fields recovered unchanged.  The null-tag deck
is excluded: it is persisted under the string key `"null"` and is not
recovered at the null key (see the counterexample). -/
theorem c8_amended (store : List (String × FlashCard)) (deck : Deck)
    (t : String) (prior : AnkiState)
    (htag : deck.tag = some t)
    (hsub : ∀ p ∈ prior.flash_cards.map Prod.fst, p ∈ store.map Prod.fst)
    (hstore : (store.map Prod.fst).Nodup) :
    ∃ rs : AnkiState,
      (serialise store deck prior).bind deserialise = some rs ∧
      (∀ p, dictLookup rs.flash_cards p = dictLookup store p) ∧
      dictLookup rs.decks t = some deck ∧
      (∀ t2, t2 ≠ t → dictLookup rs.decks t2 = dictLookup prior.decks t2) := by
  refine ⟨_, deserialise_serialise store deck prior hsub, ?_, ?_, ?_⟩
  · intro p
    show dictLookup ((serialiseCardsPy store prior).map fun q =>
        (keyStr q.1, decodeCard q.2)) p = dictLookup store p
    rw [dictLookup_map_keyStr _ _ _ (serialiseCardsPy_keys store prior)]
    simp only [serialiseCardsPy]
    have hnodupb : (((store.map fun pc => ((some pc.1 : Option String),
        card_as_dict pc.2)).map Prod.fst)).Nodup := by
      have h2 : ((store.map fun pc => ((some pc.1 : Option String),
          card_as_dict pc.2)).map Prod.fst) = (store.map Prod.fst).map some := by
        rw [List.map_map, List.map_map]
        rfl
      rw [h2]
      exact hstore.map (Option.some_injective _)
    rw [dictLookup_dictMerge _ _ _ hnodupb]
    have hb := dictLookup_map_pair (fun s : String => (some s : Option String))
      card_as_dict (Option.some_injective _) store p
    rw [hb]
    cases hsp : dictLookup store p with
    | some c => simp [decodeCard_card_as_dict]
    | none =>
      have ha := dictLookup_map_pair (fun s : String => (some s : Option String))
        pyFlashCardTuple (Option.some_injective _) prior.flash_cards p
      have hmem : p ∉ store.map Prod.fst := (dictLookup_eq_none_iff _ _).mp hsp
      have hpr : dictLookup prior.flash_cards p = none :=
        (dictLookup_eq_none_iff _ _).mpr fun hc => hmem (hsub p hc)
      simp [ha, hpr]
  · show dictLookup ((serialiseDecksPy deck prior).map fun q =>
        (keyStr q.1, decodeDeck q.2)) t = some deck
    rw [dictLookup_map_keyStr _ _ _
      (serialiseDecksPy_keys deck prior (by simp [htag]))]
    simp only [serialiseDecksPy]
    rw [htag, dictLookup_dictInsert_self]
    simp [decodeDeck_deck_as_dict]
  · intro t2 hne
    show dictLookup ((serialiseDecksPy deck prior).map fun q =>
        (keyStr q.1, decodeDeck q.2)) t2 = dictLookup prior.decks t2
    rw [dictLookup_map_keyStr _ _ _
      (serialiseDecksPy_keys deck prior (by simp [htag]))]
    simp only [serialiseDecksPy]
    rw [htag, dictLookup_dictInsert_ne _ _ _ _
      (show (some t2 : Option String) ≠ some t from by simpa using hne)]
    have hp := dictLookup_map_pair (fun s : String => (some s : Option String))
      deck_as_dict (Option.some_injective _) prior.decks t2
    rw [hp]
    cases hd : dictLookup prior.decks t2 with
    | none => rfl
    | some d => simp [decodeDeck_deck_as_dict]

/-- Null-tag deck of the claim C8 counterexample. -/
def dkNull : Deck := ⟨none, [], 1, 13 / 10, 0⟩

/-- The empty prior document. -/
def ankiState0 : AnkiState := ⟨[], []⟩

/-- Claim C8 counterexample: serialising a session on the null-tag deck and
loading the result back yields a deck map whose only key is the string
`"null"`; looking the deck up again under its original null tag — as `main`
does on the next run — finds nothing.  The absent/null deck key does not
survive the round trip. -/
theorem c8_counterexample :
    ((serialise [] dkNull ankiState0).bind deserialise).map
        (fun rs => (decksGet rs.decks dkNull.tag, rs.decks.map Prod.fst)) =
      some (none, ["null"]) := by
  rw [deserialise_serialise [] dkNull ankiState0 (by simp [ankiState0])]
  simp [serialiseDecksPy, serialiseCardsPy, ankiState0, dictInsert, dictMerge,
    keyStr, decksGet, dkNull, decodeDeck_deck_as_dict]

/-- Active deck of the `c8_amended` witness. -/
def c8wdeck : Deck := ⟨some "t", [], 1, 13 / 10, 0⟩

/-- A prior persisted deck untouched by the `c8_amended` witness session. -/
def c8wdx : Deck := ⟨some "x", ["a.md"], 2, 3, 1⟩

/-- Prior document of the `c8_amended` witness. -/
def c8wprior : AnkiState := ⟨[("x", c8wdx)], []⟩

/-- Witness for `c8_amended`: a concrete round trip recovers both the active
deck and the untouched prior deck at their tag keys. -/
theorem c8_amended_witness :
    ((serialise [] c8wdeck c8wprior).bind deserialise).map
        (fun rs => (dictLookup rs.decks "t", dictLookup rs.decks "x")) =
      some (some c8wdeck, some c8wdx) := by
  obtain ⟨rs, h1, h2, h3, h4⟩ := c8_amended [] c8wdeck "t" c8wprior rfl
    (by simp [c8wprior]) (by simp)
  rw [h1]
  have hx : dictLookup rs.decks "x" = some c8wdx := by
    rw [h4 "x" (by decide)]
    simp [c8wprior, dictLookup_cons]
  simp [h3, hx]

end Anki
